import Mathlib

/-!
Shallow embedding of the ownership-tracking registry core of
`src/include/application.hpp` (GLPractice).

The native OpenGL allocation/free capabilities are modelled by an explicit
state `GLState` carrying a fresh-handle counter and the trace of free calls
(`gl::delete_program` / `gl::delete_buffer` / `gl::delete_vertex_array`).
Handles are `Nat`; `0` is the sentinel for "absent", exactly as in the code.
-/

namespace GLP

/-- Explicit model of the side-effecting GL capability set: `nextHandle` is the
source of fresh handles returned by `gl::create_program` / `gl::generate_buffer`
/ `gl::generate_vertex_array`, and `freed` is the trace of handles passed to the
corresponding delete call. -/
structure GLState where
  nextHandle : Nat
  freed : List Nat
deriving DecidableEq

/-- Allocation capability: returns a fresh nonzero handle (models
`gl::create_program`, `gl::generate_buffer`, `gl::generate_vertex_array`). -/
def glAlloc (g : GLState) : Nat × GLState :=
  (g.nextHandle, ⟨g.nextHandle + 1, g.freed⟩)

/-- Free capability: records the freed handle in the trace (models
`gl::delete_program`, `gl::delete_buffer`, `gl::delete_vertex_array`). -/
def glFree (h : Nat) (g : GLState) : GLState :=
  ⟨g.nextHandle, g.freed ++ [h]⟩

/-- Embedding of `class shader` (application.hpp:422-709): the handle-relevant
fields. The two `char const*` source-path members are irrelevant to ownership
and are omitted. -/
structure Shader where
  m_program : Nat
  m_uniform_model : Nat
  m_uniform_view : Nat
  m_uniform_projection : Nat
  m_owning : Bool
deriving DecidableEq

/-- Embedding of the shader adoption constructor
`shader(gl::u32 program, gl::u32 uniform_model, gl::u32 uniform_view, gl::u32 uniform_projection, bool owning = true)`
(application.hpp:444-455). `gul` models the external query
`gl::get_uniform_location(program, name)`. Body comment in the source:
`if (program != 0 && !owning) m_owning = false;`. -/
def Shader.adopt (gul : Nat → Nat → Nat) (program uniform_model uniform_view uniform_projection : Nat)
    (owning : Bool) (g : GLState) : Shader × GLState :=
  let pg := if program = 0 then glAlloc g else (program, g)
  let p := pg.1
  let um := if uniform_model = 0 then gul p 0 else uniform_model
  let uv := if uniform_view = 0 then gul p 1 else uniform_view
  let up := if uniform_projection = 0 then gul p 2 else uniform_projection
  let s : Shader := ⟨p, um, uv, up, owning⟩
  let s := if program ≠ 0 ∧ owning = false then { s with m_owning := false } else s
  (s, pg.2)

/-- Embedding of the shader move constructor `shader(shader&& other)`
(application.hpp:459-471): copies every member including `m_owning`, then sets
`other.m_owning = false`. Returns (destination, moved-from source). -/
def Shader.moveCtor (other : Shader) : Shader × Shader :=
  (⟨other.m_program, other.m_uniform_model, other.m_uniform_view,
    other.m_uniform_projection, other.m_owning⟩,
   { other with m_owning := false })

/-- Embedding of the shader move assignment `shader& operator=(shader&& other)`
(application.hpp:475-491). Faithful to the source: if the two programs are
equal it returns immediately; otherwise it calls `gl::delete_program(m_program)`
whenever `m_program != 0` (NOT guarded by `m_owning`), copies `m_program` and
the three uniform fields from `other`, does NOT assign `m_owning`, and finally
sets `other.m_owning = false`. Returns (destination, source, gl-state). -/
def Shader.moveAssign (self other : Shader) (g : GLState) : Shader × Shader × GLState :=
  if self.m_program = other.m_program then
    (self, other, g)
  else
    let g := if self.m_program ≠ 0 then glFree self.m_program g else g
    ({ self with
        m_program := other.m_program,
        m_uniform_model := other.m_uniform_model,
        m_uniform_view := other.m_uniform_view,
        m_uniform_projection := other.m_uniform_projection },
     { other with m_owning := false }, g)

/-- Embedding of the shader destructor `~shader()` (application.hpp:493-500):
deletes the program iff `m_owning`. Returns the resulting gl-state. -/
def Shader.destruct (self : Shader) (g : GLState) : GLState :=
  if self.m_owning then glFree self.m_program g else g

/-- Embedding of `shader::clear()` (application.hpp:550-562). -/
def Shader.clear (self : Shader) (g : GLState) : Shader × GLState :=
  let sg :=
    if self.m_program ≠ 0 ∧ self.m_owning then
      ({ self with m_owning := false }, glFree self.m_program g)
    else (self, g)
  ({ sg.1 with m_program := 0, m_uniform_model := 0, m_uniform_projection := 0, m_uniform_view := 0 }, sg.2)

/-- Embedding of `class buffer` (application.hpp:734-865). The member
declaration at application.hpp:863 is literally `bool m_type = GL_ARRAY_BUFFER;`
so the stored type is a C++ `bool`, embedded as `Bool`. -/
structure Buffer where
  m_object : Nat
  m_type : Bool
  m_owning : Bool
deriving DecidableEq

/-- Embedding of the buffer adoption constructor
`buffer(gl::u32 object, gl::e32 type, bool owning = true)`
(application.hpp:762-770): `m_object(object == 0 ? gl::generate_buffer() : object)`,
`m_type(type)` (narrowing `gl::e32` to `bool`: nonzero becomes `true`),
`m_owning(owning || object == 0)`. -/
def Buffer.adopt (object ty : Nat) (owning : Bool) (g : GLState) : Buffer × GLState :=
  let og := if object = 0 then glAlloc g else (object, g)
  (⟨og.1, ty != 0, owning || (object == 0)⟩, og.2)

/-- Embedding of the buffer move constructor `buffer(buffer&& other)`
(application.hpp:774-782): copies all members, sets `other.m_owning = false`. -/
def Buffer.moveCtor (other : Buffer) : Buffer × Buffer :=
  (⟨other.m_object, other.m_type, other.m_owning⟩, { other with m_owning := false })

/-- Embedding of `buffer& operator=(buffer&& other)` (application.hpp:792-808):
same-handle early return; deletes the current object iff `m_owning`; transfers
`m_object`, `m_type` and `m_owning`; sets `other.m_owning = false`. -/
def Buffer.moveAssign (self other : Buffer) (g : GLState) : Buffer × Buffer × GLState :=
  if self.m_object = other.m_object then
    (self, other, g)
  else
    let g := if self.m_owning then glFree self.m_object g else g
    (⟨other.m_object, other.m_type, other.m_owning⟩, { other with m_owning := false }, g)

/-- Embedding of `buffer::clear()` (application.hpp:833-841): if owning, delete
the object and set `m_owning = false`. The destructor `~buffer()` just calls
`clear()` (application.hpp:784-788). -/
def Buffer.clear (self : Buffer) (g : GLState) : Buffer × GLState :=
  if self.m_owning then ({ self with m_owning := false }, glFree self.m_object g)
  else (self, g)

/-- Embedding of `buffer::bind()` (application.hpp:813-817): the pair of
arguments `(target, object)` passed to `gl::bind_buffer(m_type, m_object)`.
The `bool` member `m_type` converts back to the integer target as 1 or 0. -/
def Buffer.bind (self : Buffer) : Nat × Nat :=
  (if self.m_type then 1 else 0, self.m_object)

/-- Embedding of `buffer::is_wrapper_of(gl::u32 object)` (application.hpp:846-848),
the identity comparison the spec calls `is_same_handle`. -/
def Buffer.is_wrapper_of (self : Buffer) (object : Nat) : Bool :=
  self.m_object == object

/-- Embedding of `operator==(buffer const&, buffer const&)` (application.hpp:857-859):
value identity is handle equality. -/
def Buffer.beqBuffer (lhs rhs : Buffer) : Bool :=
  lhs.m_object == rhs.m_object

/-- Embedding of `class vertex_array` (application.hpp:875-982). -/
structure VertexArray where
  m_object : Nat
  m_owning : Bool
deriving DecidableEq

/-- Embedding of the vertex_array adoption constructor
`vertex_array(gl::u32 object, bool owning = true)` (application.hpp:891-893):
`m_object(object == 0 ? gl::generate_vertex_array() : object)`,
`m_owning(owning || object == 0)`. -/
def VertexArray.adopt (object : Nat) (owning : Bool) (g : GLState) : VertexArray × GLState :=
  let og := if object = 0 then glAlloc g else (object, g)
  (⟨og.1, owning || (object == 0)⟩, og.2)

/-- Embedding of the vertex_array move constructor (application.hpp:904-909). -/
def VertexArray.moveCtor (other : VertexArray) : VertexArray × VertexArray :=
  (⟨other.m_object, other.m_owning⟩, { other with m_owning := false })

/-- Embedding of `vertex_array& operator=(vertex_array&& other)`
(application.hpp:925-940): same-handle early return; deletes the current object
iff `m_owning`; transfers `m_object` and `m_owning`; sets `other.m_owning = false`. -/
def VertexArray.moveAssign (self other : VertexArray) (g : GLState) :
    VertexArray × VertexArray × GLState :=
  if self.m_object = other.m_object then
    (self, other, g)
  else
    let g := if self.m_owning then glFree self.m_object g else g
    (⟨other.m_object, other.m_owning⟩, { other with m_owning := false }, g)

/-- Embedding of `vertex_array::clear()` (application.hpp:961-969); the
destructor calls it (application.hpp:911-913). -/
def VertexArray.clear (self : VertexArray) (g : GLState) : VertexArray × GLState :=
  if self.m_owning then ({ self with m_owning := false }, glFree self.m_object g)
  else (self, g)

/-! ### Name allocator: `states::next_name` (application.hpp:297-317)

The source returns a closure over a per-kind `prefix` string and a per-kind
mutable counter.  Body:

    if (record.find(hint) == record.cend()) { return hint; }
    auto ss = std::stringstream();
    while (true) {
        ss << hint << prefix << counter++;
        auto name = ss.str();
        if (!record.contains(name)) { return name; }
    }

Note the `stringstream` is declared OUTSIDE the loop and never reset, so each
iteration appends to the previous candidate.  We embed the loop with explicit
fuel; the fallback value of `Option.getD` corresponds to the unreachable
`return "";` after the `while (true)` in the source, and is proved dead by
`nextNameLoop_isSome` below. -/

/-- Length of the longest name in the record, used only for the fuel bound. -/
def maxKeyLen (keys : List String) : Nat :=
  keys.foldr (fun s acc => max s.length acc) 0

/-- One iteration of the `while (true)` loop in `states::next_name`: appends
`hint ++ pfx ++ counter` to the accumulated stream contents `ss`, returns the
accumulated string if it is not in the record, and otherwise retries with the
incremented counter. -/
def nextNameLoop (keys : List String) (hint pfx : String) :
    Nat → String → Nat → Option (String × Nat)
  | 0, _, _ => none
  | fuel + 1, ss, counter =>
    let ss1 := ss ++ hint ++ pfx ++ Nat.repr counter
    if keys.contains ss1 then nextNameLoop keys hint pfx fuel ss1 (counter + 1)
    else some (ss1, counter + 1)

/-- Embedding of the closure produced by `states::next_name(prefix, counter)`
(application.hpp:297-317), applied to the record keys and a hint.  Returns the
chosen name together with the updated per-kind counter. -/
def next_name (keys : List String) (pfx hint : String) (counter : Nat) : String × Nat :=
  if keys.contains hint = false then (hint, counter)
  else (nextNameLoop keys hint pfx (maxKeyLen keys + 2) "" counter).getD ("", counter)

theorem toDigitsCore_length_lower (b : Nat) :
    ∀ (fuel n : Nat) (acc : List Char), 1 ≤ fuel →
      acc.length + 1 ≤ (Nat.toDigitsCore b fuel n acc).length := by
  intro fuel
  induction fuel with
  | zero => intro n acc h; omega
  | succ f ih =>
    intro n acc _
    simp only [Nat.toDigitsCore]
    by_cases hnb : n / b = 0
    · simp [hnb]
    · simp only [hnb, if_false]
      cases f with
      | zero => simp [Nat.toDigitsCore]
      | succ f1 =>
        have h := ih (n / b) (Nat.digitChar (n % b) :: acc) (by omega)
        simp only [List.length_cons] at h
        omega

theorem one_le_repr_length (n : Nat) : 1 ≤ (Nat.repr n).length := by
  have h := toDigitsCore_length_lower 10 (n + 1) n [] (by omega)
  simpa [Nat.repr, Nat.toDigits, String.length, List.asString] using h

theorem le_maxKeyLen {keys : List String} {s : String} (h : s ∈ keys) :
    s.length ≤ maxKeyLen keys := by
  induction keys with
  | nil => cases h
  | cons k l ih =>
    rcases List.mem_cons.mp h with rfl | hmem
    · simp [maxKeyLen]
    · have := ih hmem
      simp only [maxKeyLen, List.foldr_cons] at *
      omega

theorem length_loopCand (ss hint pfx : String) (counter : Nat) :
    ss.length + 1 ≤ (ss ++ hint ++ pfx ++ Nat.repr counter).length := by
  have h := one_le_repr_length counter
  simp only [String.length_append]
  omega

/-- The `while (true)` loop of `states::next_name` terminates within the fuel
budget used by `next_name`: the unreachable `return "";` of the source is dead
in the embedding as well. -/
theorem nextNameLoop_isSome (keys : List String) (hint pfx : String) :
    ∀ (fuel : Nat) (ss : String) (counter : Nat), 1 ≤ fuel →
      maxKeyLen keys + 2 ≤ ss.length + fuel →
      (nextNameLoop keys hint pfx fuel ss counter).isSome := by
  intro fuel
  induction fuel with
  | zero => intro ss counter h; omega
  | succ f ih =>
    intro ss counter _ hbound
    simp only [nextNameLoop]
    by_cases hm : (ss ++ hint ++ pfx ++ Nat.repr counter) ∈ keys
    · rw [if_pos (List.elem_iff.mpr hm)]
      have hlenK := le_maxKeyLen hm
      have hgrow := length_loopCand ss hint pfx counter
      exact ih _ (counter + 1) (by omega) (by omega)
    · rw [if_neg (fun hcc => hm (List.elem_iff.mp hcc))]
      simp

/-- Every name the loop returns is absent from the record. -/
theorem nextNameLoop_free (keys : List String) (hint pfx : String) :
    ∀ (fuel : Nat) (ss : String) (counter : Nat) (n : String) (c : Nat),
      nextNameLoop keys hint pfx fuel ss counter = some (n, c) →
      keys.contains n = false := by
  intro fuel
  induction fuel with
  | zero => intro ss counter n c h; simp [nextNameLoop] at h
  | succ f ih =>
    intro ss counter n c h
    simp only [nextNameLoop] at h
    by_cases hm : (ss ++ hint ++ pfx ++ Nat.repr counter) ∈ keys
    · rw [if_pos (List.elem_iff.mpr hm)] at h
      exact ih _ (counter + 1) n c h
    · rw [if_neg (fun hcc => hm (List.elem_iff.mp hcc))] at h
      simp only [Option.some.injEq, Prod.mk.injEq] at h
      obtain ⟨rfl, rfl⟩ := h
      simpa using hm

/-- The name chosen by `states::next_name` never collides with the record. -/
theorem next_name_free (keys : List String) (pfx hint : String) (counter : Nat) :
    keys.contains (next_name keys pfx hint counter).1 = false := by
  unfold next_name
  by_cases hh : keys.contains hint = false
  · rw [if_pos hh]
    exact hh
  · rw [if_neg hh]
    have h0 : ("" : String).length = 0 := rfl
    have hs := nextNameLoop_isSome keys hint pfx (maxKeyLen keys + 2) "" counter
      (by omega) (by omega)
    obtain ⟨⟨n, c⟩, hr⟩ := Option.isSome_iff_exists.mp hs
    rw [hr, Option.getD_some]
    exact nextNameLoop_free keys hint pfx _ "" counter n c hr

/-! ### Typed registry: `resource_manager::proxy<Resrc>` (application.hpp:1824-2026)

The proxy wraps a `std::unordered_map<std::string, Resrc>& m_record`, a
`std::function m_next_name` wired at construction to the per-kind prefix and
counter of `states::next_name`, and a `mutable std::string m_recently_used`
(empty string meaning "nothing recently used").  The map is embedded as an
association list with unique keys; the list order stands for the map's
iteration order (`m_record.begin()` is the head).  Error exits (all thrown via
`LOG.exception`, plus the `std::out_of_range` that `m_record.at` raises on a
missing key) are embedded as `Except` values. -/

/-- Error taxonomy of the registry operations.  `NotFound`, `IndexOutOfRange`
and `Empty` are the `LOG.exception` exits at application.hpp:1881, :1872 and
:1973; `AtMissing` is the `std::out_of_range` that `m_record.at` throws at
application.hpp:1979 when `m_recently_used` names an absent key. -/
inductive RegError where
  | NotFound
  | IndexOutOfRange
  | Empty
  | AtMissing
deriving DecidableEq

/-- Keys of the association list, in iteration order. -/
def keysOf {V : Type} (l : List (String × V)) : List String :=
  l.map Prod.fst

/-- Membership test (`m_record.contains(name)` / `m_record.find(name)`). -/
def containsKey {V : Type} (l : List (String × V)) (name : String) : Bool :=
  (keysOf l).contains name

/-- Removal of the entry under a key (`m_record.erase(name)`). -/
def eraseKey {V : Type} (l : List (String × V)) (name : String) : List (String × V) :=
  l.eraseP (fun p => p.1 == name)

/-- Map insertion that does not overwrite (`m_record.insert({name, v})`). -/
def insertKey {V : Type} (l : List (String × V)) (name : String) (v : V) :
    List (String × V) :=
  if containsKey l name then l else l ++ [(name, v)]

/-- Insert-or-assign (`m_record[name] = v`): overwrites the entry if the key is
present, appends a new entry otherwise. -/
def setKey {V : Type} (l : List (String × V)) (name : String) (v : V) :
    List (String × V) :=
  if containsKey l name then l.map (fun p => if p.1 == name then (name, v) else p)
  else l ++ [(name, v)]

/-- State of one `resource_manager::proxy<Resrc>` together with the per-kind
counter of `states::next_name` that its `m_next_name` closure captures. -/
structure Registry (V : Type) where
  m_record : List (String × V)
  m_recently_used : String
  counter : Nat
deriving DecidableEq

/-- The freshly initialized registry: empty map, empty recently-used cache,
per-kind counter at zero. -/
def Registry.empty {V : Type} : Registry V := ⟨[], "", 0⟩

/-- Embedding of `proxy::contains(name)` (application.hpp:1896-1898). -/
def Registry.contains {V : Type} (s : Registry V) (name : String) : Bool :=
  containsKey s.m_record name

/-- Embedding of `proxy::record(Resrc& object, std::string& name)`
(application.hpp:1949-1959): allocates a name through the wired
`states::next_name` closure (`pfx` is the per-kind prefix), inserts the moved
object, marks the adopted name recently used, and returns the adopted name.
(The source also sets the caller's residual `object.m_owning = 0`; the residual
is not part of the registry state.) -/
def Registry.record {V : Type} (pfx : String) (s : Registry V) (object : V)
    (hint : String) : String × Registry V :=
  let nc := next_name (keysOf s.m_record) pfx hint s.counter
  (nc.1, ⟨insertKey s.m_record nc.1 object, nc.1, nc.2⟩)

/-- Embedding of `proxy::emplace(name, args...)` (application.hpp:1900-1911):
constructs the resource (the constructed value is `object` here), then calls
`record` and sets `m_recently_used` to the adopted name. -/
def Registry.emplace {V : Type} (pfx : String) (s : Registry V) (object : V)
    (hint : String) : String × Registry V :=
  let ns := Registry.record pfx s object hint
  (ns.1, { ns.2 with m_recently_used := ns.1 })

/-- Embedding of `proxy::remove(name)` (application.hpp:1982-1987): erases the
entry and clears `m_recently_used` iff it equals the removed name. -/
def Registry.remove {V : Type} (s : Registry V) (name : String) : Registry V :=
  { s with m_record := eraseKey s.m_record name,
           m_recently_used := if s.m_recently_used == name then "" else s.m_recently_used }

/-- Embedding of `proxy::operator[](std::string name)` (application.hpp:1879-1886):
missing key fails `NotFound`, otherwise returns the entry and marks it recently
used. -/
def Registry.getByName {V : Type} (s : Registry V) (name : String) :
    Except RegError (V × Registry V) :=
  match List.lookup name s.m_record with
  | none => Except.error RegError.NotFound
  | some v => Except.ok (v, { s with m_recently_used := name })

/-- Embedding of `proxy::operator[](gl::u32 idx)` (application.hpp:1870-1877):
an index at or past the entry count fails `IndexOutOfRange`, otherwise the
idx-th entry in iteration order is returned and marked recently used. -/
def Registry.getByIndex {V : Type} (s : Registry V) (idx : Nat) :
    Except RegError (V × Registry V) :=
  if h : idx < s.m_record.length then
    let p := s.m_record.get ⟨idx, h⟩
    Except.ok (p.2, { s with m_recently_used := p.1 })
  else Except.error RegError.IndexOutOfRange

/-- Embedding of `proxy::recent()` (application.hpp:1970-1980): with an empty
cache, an empty registry fails `Empty` and otherwise the first entry
(`*m_record.begin()`) is returned and cached; with a non-empty cache the entry
is fetched by `m_record.at(m_recently_used)`, which raises `AtMissing` if the
cached name is absent. -/
def Registry.recent {V : Type} (s : Registry V) : Except RegError (V × Registry V) :=
  if s.m_recently_used == "" then
    match s.m_record with
    | [] => Except.error RegError.Empty
    | p :: _ => Except.ok (p.2, { s with m_recently_used := p.1 })
  else
    match List.lookup s.m_recently_used s.m_record with
    | some v => Except.ok (v, s)
    | none => Except.error RegError.AtMissing

/-- Embedding of `proxy::rename(old_name, new_name)` (application.hpp:1989-2000):
absent `old_name` returns `false` without effect; otherwise
`m_record[new_name] = m_record[old_name]`, then `m_record.erase(old_name)`,
then the recently-used cache is redirected if it referenced `old_name`. -/
def Registry.rename {V : Type} (s : Registry V) (old_name new_name : String) :
    Bool × Registry V :=
  match List.lookup old_name s.m_record with
  | none => (false, s)
  | some v =>
    (true, ⟨eraseKey (setKey s.m_record new_name v) old_name,
            if s.m_recently_used == old_name then new_name else s.m_recently_used,
            s.counter⟩)

/-- Embedding of `proxy::retrieve(name)` (application.hpp:2009-2020): a missing
key fails `NotFound`; otherwise the entry is moved out, erased from the map
(the erased residual is non-owning, so the erase frees nothing), the cache is
cleared if it named the entry, and the value is returned to the caller. -/
def Registry.retrieve {V : Type} (s : Registry V) (name : String) :
    Except RegError (V × Registry V) :=
  match List.lookup name s.m_record with
  | none => Except.error RegError.NotFound
  | some v =>
    Except.ok (v, ⟨eraseKey s.m_record name,
                   if s.m_recently_used == name then "" else s.m_recently_used,
                   s.counter⟩)

/-! ### Association-list lemmas used by the registry proofs -/

theorem mem_keysOf_iff_lookup {V : Type} {l : List (String × V)} {n : String} :
    n ∈ keysOf l ↔ (List.lookup n l).isSome := by
  induction l with
  | nil => simp [keysOf]
  | cons p l ih =>
    obtain ⟨k, v⟩ := p
    simp only [keysOf, List.map_cons, List.mem_cons, List.lookup]
    by_cases hk : n = k
    · subst hk; simp
    · have hb : (n == k) = false := by simp [hk]
      rw [hb]
      simp only [keysOf] at ih
      simp [hk, ih]

theorem containsKey_false_iff {V : Type} {l : List (String × V)} {n : String} :
    containsKey l n = false ↔ n ∉ keysOf l := by
  simp [containsKey]

theorem containsKey_true_iff {V : Type} {l : List (String × V)} {n : String} :
    containsKey l n = true ↔ n ∈ keysOf l := by
  simp [containsKey]

theorem lookup_eq_none_iff {V : Type} {l : List (String × V)} {n : String} :
    List.lookup n l = none ↔ containsKey l n = false := by
  rw [containsKey_false_iff, mem_keysOf_iff_lookup]
  cases List.lookup n l <;> simp

theorem lookup_append_single {V : Type} {l : List (String × V)} {n : String} (v : V)
    (h : containsKey l n = false) : List.lookup n (l ++ [(n, v)]) = some v := by
  induction l with
  | nil => simp [List.lookup]
  | cons p l ih =>
    obtain ⟨k, w⟩ := p
    have hn : n ∉ keysOf ((k, w) :: l) := containsKey_false_iff.mp h
    simp only [keysOf, List.map_cons, List.mem_cons] at hn
    push_neg at hn
    have hb : (n == k) = false := by simp [hn.1]
    simp only [List.cons_append, List.lookup, hb]
    exact ih (containsKey_false_iff.mpr (by simpa [keysOf] using hn.2))

theorem containsKey_insertKey_self {V : Type} (l : List (String × V)) (n : String) (v : V) :
    containsKey (insertKey l n v) n = true := by
  unfold insertKey
  by_cases h : containsKey l n = true
  · rw [if_pos h]; exact h
  · have hf : containsKey l n = false := by
      cases hc : containsKey l n
      · rfl
      · exact absurd hc h
    rw [if_neg (by rw [hf]; exact Bool.false_ne_true)]
    rw [containsKey_true_iff, mem_keysOf_iff_lookup, lookup_append_single v hf]
    rfl

theorem lookup_insertKey_fresh {V : Type} {l : List (String × V)} {n : String} (v : V)
    (h : containsKey l n = false) : List.lookup n (insertKey l n v) = some v := by
  unfold insertKey
  rw [if_neg (by rw [h]; exact Bool.false_ne_true)]
  exact lookup_append_single v h

theorem lookup_eraseKey_ne {V : Type} {l : List (String × V)} {m n : String}
    (h : m ≠ n) : List.lookup m (eraseKey l n) = List.lookup m l := by
  induction l with
  | nil => simp [eraseKey]
  | cons p l ih =>
    obtain ⟨k, w⟩ := p
    by_cases hk : k = n
    · subst hk
      have hb : (m == k) = false := by simp [h]
      simp only [eraseKey, List.eraseP_cons, beq_self_eq_true, if_true, List.lookup, hb]
      simp [List.lookup, hb]
    · have hb : (k == n) = false := by simp [hk]
      simp only [eraseKey, List.eraseP_cons, hb]
      simp only [Bool.false_eq_true, if_false, List.lookup]
      cases hmk : (m == k)
      · simpa [eraseKey] using ih
      · rfl

theorem lookup_eraseKey_self {V : Type} {l : List (String × V)} {n : String}
    (hnd : (keysOf l).Nodup) : List.lookup n (eraseKey l n) = none := by
  induction l with
  | nil => simp [eraseKey]
  | cons p l ih =>
    obtain ⟨k, w⟩ := p
    simp only [keysOf, List.map_cons, List.nodup_cons] at hnd
    by_cases hk : k = n
    · subst hk
      rw [eraseKey, List.eraseP_cons_of_pos (by simp)]
      rw [lookup_eq_none_iff, containsKey_false_iff]
      exact hnd.1
    · rw [eraseKey, List.eraseP_cons_of_neg (by simp [hk])]
      have hnk : (n == k) = false := beq_false_of_ne (Ne.symm hk)
      simp only [List.lookup, hnk]
      simpa [eraseKey] using ih hnd.2

theorem keysOf_setKey_present {V : Type} {l : List (String × V)} {n : String} (v : V)
    (h : containsKey l n = true) : keysOf (setKey l n v) = keysOf l := by
  rw [setKey, if_pos h]
  unfold keysOf
  rw [List.map_map]
  apply List.map_congr_left
  intro p hp
  by_cases hk : p.1 = n
  · simp [Function.comp, hk]
  · simp [Function.comp, beq_false_of_ne hk]

theorem lookup_setKey_self {V : Type} {l : List (String × V)} {n : String} (v : V) :
    List.lookup n (setKey l n v) = some v := by
  rw [setKey]
  by_cases h : containsKey l n = true
  · rw [if_pos h]
    have hm : n ∈ keysOf l := containsKey_true_iff.mp h
    clear h
    induction l with
    | nil => simp [keysOf] at hm
    | cons p l ih =>
      obtain ⟨k, w⟩ := p
      by_cases hk : k = n
      · subst hk
        rw [List.map_cons]
        norm_num
      · have hm2 : n ∈ keysOf l := by
          simp only [keysOf, List.map_cons, List.mem_cons] at hm
          rcases hm with h1 | h2
          · exact absurd h1.symm hk
          · exact h2
        rw [List.map_cons, if_neg (by simp [hk]), List.lookup_cons,
          beq_false_of_ne (Ne.symm hk)]
        exact ih hm2
  · have hf : containsKey l n = false := by
      cases hc : containsKey l n
      · rfl
      · exact absurd hc h
    rw [if_neg (by rw [hf]; exact Bool.false_ne_true)]
    exact lookup_append_single v hf

theorem nodup_keys_setKey {V : Type} {l : List (String × V)} {n : String} (v : V)
    (hnd : (keysOf l).Nodup) : (keysOf (setKey l n v)).Nodup := by
  by_cases h : containsKey l n = true
  · rw [keysOf_setKey_present v h]; exact hnd
  · have hf : containsKey l n = false := by
      cases hc : containsKey l n
      · rfl
      · exact absurd hc h
    rw [setKey, if_neg (by rw [hf]; exact Bool.false_ne_true)]
    have hn : n ∉ keysOf l := containsKey_false_iff.mp hf
    unfold keysOf at hn hnd ⊢
    rw [List.map_append, List.nodup_append]
    refine ⟨hnd, by simp, ?_⟩
    intro a ha hb
    simp only [List.map_cons, List.map_nil, List.mem_singleton] at hb
    exact hn (hb ▸ ha)

/-! ### Claim theorems -/

/-- C1: the claim states that every move operation on a handle wrapper
transfers the handle AND the owning flag to the destination, and that only an
owner ever signals the free capability.  `shader::operator=(shader&&)`
(application.hpp:475-491) violates this: it copies `m_program` and the uniform
fields but never assigns `m_owning = other.m_owning`, and it deletes the
destination's current program whenever it is nonzero, even when the destination
does not own it.  Evaluation at the failing input: destination = non-owning
wrapper of program 5, source = owning wrapper of program 7.  The result shows
the destination still has `m_owning = false` (the owning flag was not
transferred, so program 7 is left with no owner), and the free trace contains
program 5, freed by a wrapper that did not own it. -/
theorem c1_shader_move_assign_drops_owning :
    Shader.moveAssign ⟨5, 1, 2, 3, false⟩ ⟨7, 4, 5, 6, true⟩ ⟨100, []⟩ =
      (⟨7, 4, 5, 6, false⟩, ⟨7, 4, 5, 6, false⟩, ⟨100, [5]⟩) := by
  decide

/-- C3 counterexample: the claim says every adoption constructor forces
`owning = true` when given the sentinel handle, for any caller-supplied owning
flag.  The shader adoption constructor (application.hpp:444-455) initializes
`m_owning(owning)` and its body `if (program != 0 && !owning) m_owning = false;`
does not fire for `program == 0`, so `shader(0, ..., owning=false)` allocates a
fresh program but keeps `owning = false`. -/
theorem c3_shader_sentinel_keeps_caller_flag :
    ¬ (Shader.adopt (fun _ _ => 9) 0 0 0 0 false ⟨1, []⟩).1.m_owning = true := by
  decide

/-- C3 (amended): for the buffer and vertex_array adoption constructors, the
sentinel handle (zero) allocates a fresh handle via the kind's allocate
capability and forces `owning = true` regardless of the caller-supplied flag;
the shader adoption constructor also allocates a fresh handle on the sentinel,
but keeps exactly the caller-supplied owning flag. -/
theorem c3_amended_sentinel_adoption (ty : Nat) (ow : Bool) (g : GLState)
    (gul : Nat → Nat → Nat) (um uv up : Nat) :
    (Buffer.adopt 0 ty ow g).1.m_owning = true ∧
    (Buffer.adopt 0 ty ow g).1.m_object = g.nextHandle ∧
    (VertexArray.adopt 0 ow g).1.m_owning = true ∧
    (VertexArray.adopt 0 ow g).1.m_object = g.nextHandle ∧
    (Shader.adopt gul 0 um uv up ow g).1.m_program = g.nextHandle ∧
    (Shader.adopt gul 0 um uv up ow g).1.m_owning = ow := by
  refine ⟨?_, ?_, ?_, ?_, ?_, ?_⟩ <;>
    simp [Buffer.adopt, VertexArray.adopt, Shader.adopt, glAlloc]

/-- C4: the claim says a colliding hint is retried with candidates of exactly
the form `hint ++ prefix ++ counter`.  The `stringstream` in
`states::next_name` (application.hpp:305-313) is declared outside the
`while (true)` loop and never reset, so the second candidate is the
accumulation of the first two, e.g. with hint `"x"`, prefix `"-"`, counter 0
and existing names `{"x", "x-0"}` the function returns `"x-0x-1"` where the
claim requires the second candidate `"x-1"`. -/
theorem c4_next_name_accumulates :
    next_name ["x", "x-0"] "-" "x" 0 = ("x-0x-1", 2) ∧ "x-0x-1" ≠ "x-1" := by
  constructor
  · rfl
  · decide

/-- C9: the buffer type member is declared `bool m_type = GL_ARRAY_BUFFER;`
(application.hpp:863), so any nonzero construction type is stored as `true`:
two buffers adopted with any distinct nonzero types hold equal stored type
values, and `buffer::bind()` (application.hpp:813-817) passes 1 as the binding
target. -/
theorem c9_buffer_type_collapsed (t1 t2 o1 o2 : Nat) (ow1 ow2 : Bool)
    (g1 g2 : GLState) (h1 : t1 ≠ 0) (h2 : t2 ≠ 0) :
    (Buffer.adopt o1 t1 ow1 g1).1.m_type = (Buffer.adopt o2 t2 ow2 g2).1.m_type ∧
    (Buffer.adopt o1 t1 ow1 g1).1.bind.1 = 1 := by
  have e1 : (t1 != 0) = true := by simpa using h1
  have e2 : (t2 != 0) = true := by simpa using h2
  constructor <;> simp [Buffer.adopt, Buffer.bind, e1, e2]

/-- C9 witness: the two documented buffer types, GL_ARRAY_BUFFER = 0x8892 and
GL_ELEMENT_ARRAY_BUFFER = 0x8893, collapse to the same stored type value and
both bind to target 1. -/
theorem c9_buffer_type_collapsed_witness :
    (0x8892 : Nat) ≠ 0 ∧ (0x8893 : Nat) ≠ 0 ∧
    ((Buffer.adopt 7 0x8892 true ⟨1, []⟩).1.m_type =
        (Buffer.adopt 8 0x8893 true ⟨1, []⟩).1.m_type ∧
      (Buffer.adopt 7 0x8892 true ⟨1, []⟩).1.bind.1 = 1) :=
  ⟨by decide, by decide,
    c9_buffer_type_collapsed 0x8892 0x8893 7 8 true true ⟨1, []⟩ ⟨1, []⟩
      (by decide) (by decide)⟩

/-- Sample buffer used by concrete witnesses: an owning wrapper of handle 5. -/
def bufA : Buffer := ⟨5, true, true⟩

/-- Sample buffer used by concrete witnesses: a non-owning wrapper of handle 9. -/
def bufB : Buffer := ⟨9, false, true⟩

/-- Sample one-entry buffer registry used by concrete witnesses. -/
def regA : Registry Buffer := ⟨[("a", bufA)], "a", 0⟩

/-- Sample two-entry buffer registry used by concrete witnesses. -/
def regAB : Registry Buffer := ⟨[("a", bufA), ("b", bufB)], "a", 0⟩

/-- Single mutation step of a typed registry through the operations claim C2
quantifies over: `emplace`, `record` and `remove`. -/
inductive RegStep {V : Type} (pfx : String) : Registry V → Registry V → Prop
  | emplace (s : Registry V) (object : V) (hint : String) :
      RegStep pfx s (Registry.emplace pfx s object hint).2
  | record (s : Registry V) (object : V) (hint : String) :
      RegStep pfx s (Registry.record pfx s object hint).2
  | remove (s : Registry V) (name : String) :
      RegStep pfx s (Registry.remove s name)

/-- The cache invariant: a non-absent `m_recently_used` names a present key. -/
def cacheInv {V : Type} (s : Registry V) : Prop :=
  s.m_recently_used = "" ∨ containsKey s.m_record s.m_recently_used = true

theorem cacheInv_step {V : Type} {pfx : String} {s t : Registry V}
    (hst : RegStep pfx s t) (hs : cacheInv s) : cacheInv t := by
  cases hst with
  | emplace object hint =>
    right
    simp only [Registry.emplace, Registry.record]
    exact containsKey_insertKey_self _ _ _
  | record object hint =>
    right
    simp only [Registry.record]
    exact containsKey_insertKey_self _ _ _
  | remove name =>
    simp only [Registry.remove]
    by_cases h : s.m_recently_used = name
    · left
      simp [h]
    · rcases hs with h0 | hc
      · left
        simp [beq_false_of_ne h, h0]
      · right
        simp only [beq_false_of_ne h, Bool.false_eq_true, if_false]
        rw [containsKey_true_iff, mem_keysOf_iff_lookup, lookup_eraseKey_ne h,
          ← mem_keysOf_iff_lookup, ← containsKey_true_iff]
        exact hc

/-- C2: starting from the empty registry, every sequence of `emplace`,
`record` and `remove` operations preserves the invariant that a non-absent
recently-used cache names a key currently present in the entry map
(no dangling cached name). -/
theorem c2_cache_invariant {V : Type} (pfx : String) (s : Registry V)
    (h : Relation.ReflTransGen (RegStep pfx) Registry.empty s) : cacheInv s := by
  induction h with
  | refl => left; rfl
  | tail _ hbc ih => exact cacheInv_step hbc ih

/-- C2 witness: the invariant holds after one concrete `record` step from the
empty buffer registry. -/
theorem c2_cache_invariant_witness :
    cacheInv ((Registry.record "-" Registry.empty bufA "a").2) :=
  c2_cache_invariant "-" _
    (Relation.ReflTransGen.single (RegStep.record Registry.empty bufA "a"))

/-- C10: `record` with an empty-string hint on a registry not containing the
empty name stores the entry under the key "" and sets the recently-used cache
to "" — the same value as the sentinel for "nothing recently used".  A
subsequent `recent()` therefore takes the empty-cache fallback branch: it does
not return the ""-named entry as most recently used, but the first entry of
the map, and caches that entry's name. -/
theorem c10_empty_hint_confuses_cache {V : Type} (pfx : String) (s : Registry V)
    (object : V) (hfree : containsKey s.m_record "" = false) :
    (Registry.record pfx s object "").1 = "" ∧
    (Registry.record pfx s object "").2.contains "" = true ∧
    (Registry.record pfx s object "").2.m_recently_used = "" ∧
    (∀ p rest, s.m_record = p :: rest →
      p.1 ≠ "" ∧
      Registry.recent (Registry.record pfx s object "").2 =
        Except.ok (p.2, { (Registry.record pfx s object "").2 with
          m_recently_used := p.1 })) := by
  have hfree2 : (keysOf s.m_record).contains "" = false := hfree
  have hname : next_name (keysOf s.m_record) pfx "" s.counter = ("", s.counter) := by
    rw [next_name, if_pos hfree2]
  have h2 : (Registry.record pfx s object "").2 =
      ⟨s.m_record ++ [("", object)], "", s.counter⟩ := by
    simp [Registry.record, hname, insertKey, hfree]
  refine ⟨?_, ?_, ?_, ?_⟩
  · simp [Registry.record, hname]
  · rw [h2, Registry.contains, containsKey_true_iff, mem_keysOf_iff_lookup,
      lookup_append_single object hfree]
    rfl
  · rw [h2]
  · intro p rest hrec
    constructor
    · intro hp
      apply containsKey_false_iff.mp hfree
      rw [hrec]
      simp only [keysOf, List.map_cons, List.mem_cons]
      exact Or.inl hp.symm
    · rw [h2, hrec]
      simp [Registry.recent]

/-- C10 witness: concrete registry holding one entry named "a"; recording a
buffer under the empty hint stores it under "" but `recent()` returns and
caches the "a" entry. -/
theorem c10_empty_hint_confuses_cache_witness :
    containsKey regA.m_record "" = false ∧
    ((Registry.record "-" regA bufB "").1 = "" ∧
      (Registry.record "-" regA bufB "").2.contains "" = true ∧
      (Registry.record "-" regA bufB "").2.m_recently_used = "" ∧
      (∀ p rest, regA.m_record = p :: rest →
        p.1 ≠ "" ∧
        Registry.recent (Registry.record "-" regA bufB "").2 =
          Except.ok (p.2, { (Registry.record "-" regA bufB "").2 with
            m_recently_used := p.1 }))) :=
  ⟨by decide, c10_empty_hint_confuses_cache "-" regA bufB (by decide)⟩

/-- C5: for every buffer registry with well-formed (unique) keys,
`retrieve(name)` of a present name removes the entry and returns the stored
value with ownership transferred to the caller: afterwards `contains(name)` is
false, and the returned value is exactly the stored wrapper, hence satisfies
`is_wrapper_of` (the spec's `is_same_handle`) with the originally stored
handle; `record(value, hint)` followed by `retrieve` of the adopted name
returns the recorded value itself, so the identities agree; `retrieve` of an
absent name fails `NotFound`. -/
theorem c5_retrieve_transfer (s : Registry Buffer) (name hint pfx : String)
    (object : Buffer) (hnd : (keysOf s.m_record).Nodup) :
    (∀ w, List.lookup name s.m_record = some w →
      ∃ t, Registry.retrieve s name = Except.ok (w, t) ∧
        t.contains name = false ∧
        w.is_wrapper_of w.m_object = true) ∧
    (∃ t, Registry.retrieve (Registry.record pfx s object hint).2
        (Registry.record pfx s object hint).1 = Except.ok (object, t) ∧
      Buffer.beqBuffer object object = true) ∧
    (List.lookup name s.m_record = none →
      Registry.retrieve s name = Except.error RegError.NotFound) := by
  refine ⟨?_, ?_, ?_⟩
  · intro w hw
    refine ⟨⟨eraseKey s.m_record name,
      if s.m_recently_used == name then "" else s.m_recently_used, s.counter⟩,
      ?_, ?_, ?_⟩
    · simp [Registry.retrieve, hw]
    · show containsKey (eraseKey s.m_record name) name = false
      exact lookup_eq_none_iff.mp (lookup_eraseKey_self hnd)
    · simp [Buffer.is_wrapper_of]
  · have hfree : containsKey s.m_record
        (next_name (keysOf s.m_record) pfx hint s.counter).1 = false :=
      next_name_free (keysOf s.m_record) pfx hint s.counter
    have hlk : List.lookup (Registry.record pfx s object hint).1
        (Registry.record pfx s object hint).2.m_record = some object := by
      simp only [Registry.record]
      exact lookup_insertKey_fresh object hfree
    simp only [Registry.retrieve, hlk]
    exact ⟨_, rfl, by simp [Buffer.beqBuffer]⟩
  · intro h
    simp [Registry.retrieve, h]

/-- C5 witness: concrete two-entry registry, retrieving the present name "a"
and round-tripping a recorded buffer under hint "c". -/
theorem c5_retrieve_transfer_witness :
    (keysOf regAB.m_record).Nodup ∧
    ((∀ w, List.lookup "a" regAB.m_record = some w →
      ∃ t, Registry.retrieve regAB "a" = Except.ok (w, t) ∧
        t.contains "a" = false ∧
        w.is_wrapper_of w.m_object = true) ∧
    (∃ t, Registry.retrieve (Registry.record "-" regAB bufB "c").2
        (Registry.record "-" regAB bufB "c").1 = Except.ok (bufB, t) ∧
      Buffer.beqBuffer bufB bufB = true) ∧
    (List.lookup "a" regAB.m_record = none →
      Registry.retrieve regAB "a" = Except.error RegError.NotFound)) :=
  ⟨by decide, c5_retrieve_transfer regAB "a" "c" "-" bufB (by decide)⟩

/-- C6 counterexample: the claim says that whenever `old` is present,
`rename(old, new)` makes the entry accessible under `new`
(`get_by_name(new)` succeeds).  For `old = new = "a"` on a registry containing
"a", the source executes `m_record[new] = m_record[old]` (a self-assignment)
followed by `m_record.erase(old)`, which erases the entry entirely: `rename`
returns true yet `get_by_name("a")` fails `NotFound` afterwards. -/
theorem c6_rename_self_erases :
    (Registry.rename regA "a" "a").1 = true ∧
    (Registry.rename regA "a" "a").2.m_record = [] ∧
    Registry.getByName (Registry.rename regA "a" "a").2 "a" =
      Except.error RegError.NotFound := by
  refine ⟨rfl, rfl, rfl⟩

/-- C6 (amended): `rename(old, new)` returns false and leaves the registry
unchanged when `old` is absent.  When `old` is present AND `new` differs from
`old`, the entry becomes accessible under `new` and no longer under `old`
(`get_by_name(old)` fails `NotFound`, `get_by_name(new)` succeeds with the
moved value, silently overwriting any entry previously named `new`), and the
recently-used cache is redirected to `new` if it referenced `old`.  (When
`new = old` and the name is present, the operation instead erases the entry,
as the counterexample shows.) -/
theorem c6_amended_rename (s : Registry Buffer) (old_name new_name : String)
    (hnd : (keysOf s.m_record).Nodup) :
    (List.lookup old_name s.m_record = none →
      Registry.rename s old_name new_name = (false, s)) ∧
    (old_name ≠ new_name →
      ∀ v, List.lookup old_name s.m_record = some v →
        (Registry.rename s old_name new_name).1 = true ∧
        Registry.getByName (Registry.rename s old_name new_name).2 new_name =
          Except.ok (v, { (Registry.rename s old_name new_name).2 with
            m_recently_used := new_name }) ∧
        Registry.getByName (Registry.rename s old_name new_name).2 old_name =
          Except.error RegError.NotFound ∧
        (Registry.rename s old_name new_name).2.m_recently_used =
          (if s.m_recently_used = old_name then new_name
            else s.m_recently_used)) := by
  constructor
  · intro h
    simp [Registry.rename, h]
  · intro hne v hv
    have hnew : List.lookup new_name
        (Registry.rename s old_name new_name).2.m_record = some v := by
      simp only [Registry.rename, hv]
      rw [lookup_eraseKey_ne (Ne.symm hne)]
      exact lookup_setKey_self v
    have hold : List.lookup old_name
        (Registry.rename s old_name new_name).2.m_record = none := by
      simp only [Registry.rename, hv]
      exact lookup_eraseKey_self (nodup_keys_setKey v hnd)
    refine ⟨?_, ?_, ?_, ?_⟩
    · simp [Registry.rename, hv]
    · simp [Registry.getByName, hnew]
    · simp [Registry.getByName, hold]
    · by_cases hru : s.m_recently_used = old_name
      · simp [Registry.rename, hv, hru]
      · simp [Registry.rename, hv, beq_false_of_ne hru, hru]

/-- C6 witness: concrete two-entry registry, renaming the present "a" to the
free name "c". -/
theorem c6_amended_rename_witness :
    (keysOf regAB.m_record).Nodup ∧ ("a" : String) ≠ "c" ∧
    ((Registry.rename regAB "a" "c").1 = true ∧
      Registry.getByName (Registry.rename regAB "a" "c").2 "c" =
        Except.ok (bufA, { (Registry.rename regAB "a" "c").2 with
          m_recently_used := "c" }) ∧
      Registry.getByName (Registry.rename regAB "a" "c").2 "a" =
        Except.error RegError.NotFound ∧
      (Registry.rename regAB "a" "c").2.m_recently_used =
        (if regAB.m_recently_used = "a" then "c"
          else regAB.m_recently_used)) :=
  ⟨by decide, by decide,
    (c6_amended_rename regAB "a" "c" (by decide)).2 (by decide) bufA (by decide)⟩

/-- C7 counterexample: the claim says `recent()` on a registry holding no
entries fails with `Empty` for every registry state.  The state reached from
the one-entry registry by `rename("a","a")` holds no entries but has
`m_recently_used = "a"`, and `recent()` there fails with the
`std::out_of_range` of `m_record.at` (`AtMissing`), not with `Empty`. -/
theorem c7_recent_dangling_cache :
    (Registry.rename regA "a" "a").2.m_record = [] ∧
    Registry.recent (Registry.rename regA "a" "a").2 =
      Except.error RegError.AtMissing ∧
    Registry.recent (Registry.rename regA "a" "a").2 ≠
      Except.error RegError.Empty := by
  refine ⟨rfl, rfl, ?_⟩
  intro h
  rw [show Registry.recent (Registry.rename regA "a" "a").2 =
      Except.error RegError.AtMissing from rfl] at h
  injection h with h2
  cases h2

/-- C7 (amended): for every registry state whose recently-used cache is either
absent or names a present key (the cache invariant), lookup by a name that is
not a key fails `NotFound`, access by an index at or past the entry count
fails `IndexOutOfRange`, and `recent()` on a registry holding no entries fails
`Empty`; every miss is reported as an explicit failure, never defaulted to a
sentinel wrapper. -/
theorem c7_amended_error_conditions {V : Type} (s : Registry V) (name : String)
    (idx : Nat) (hinv : cacheInv s) :
    (List.lookup name s.m_record = none →
      Registry.getByName s name = Except.error RegError.NotFound) ∧
    (s.m_record.length ≤ idx →
      Registry.getByIndex s idx = Except.error RegError.IndexOutOfRange) ∧
    (s.m_record = [] → Registry.recent s = Except.error RegError.Empty) := by
  refine ⟨?_, ?_, ?_⟩
  · intro h
    simp [Registry.getByName, h]
  · intro h
    rw [Registry.getByIndex, dif_neg (by omega)]
  · intro h
    rcases hinv with h0 | hc
    · simp [Registry.recent, h0, h]
    · rw [h] at hc
      simp [containsKey, keysOf] at hc

/-- C7 witness: the empty buffer registry with an absent cache satisfies the
invariant, and all three error conditions fire on it. -/
theorem c7_amended_error_conditions_witness :
    cacheInv (Registry.empty : Registry Buffer) ∧
    ((List.lookup "z" (Registry.empty : Registry Buffer).m_record = none →
      Registry.getByName (Registry.empty : Registry Buffer) "z" =
        Except.error RegError.NotFound) ∧
    ((Registry.empty : Registry Buffer).m_record.length ≤ 0 →
      Registry.getByIndex (Registry.empty : Registry Buffer) 0 =
        Except.error RegError.IndexOutOfRange) ∧
    ((Registry.empty : Registry Buffer).m_record = [] →
      Registry.recent (Registry.empty : Registry Buffer) =
        Except.error RegError.Empty)) :=
  ⟨Or.inl rfl, c7_amended_error_conditions Registry.empty "z" 0 (Or.inl rfl)⟩

end GLP
